import Mathlib

/-!
Shallow embedding of `header.go` from goreleaser/rpmpack.

Bytes are modelled as `Nat` (each produced byte is < 256 by construction),
byte slices as `List Nat`, Go strings as their UTF-8 byte slices, Go `int`
values that flow through an `int32` conversion as `Int` (the conversion to
the four big-endian bytes of the corresponding `int32` is `i32be`, which
reduces modulo 2^32 exactly as the Go truncation does), and the `io.Writer`
sink as an explicit state (`WS`) together with a per-call accept/reject
schedule (`Sink`).  The `map[int]indexEntry` of the Go `index` struct is
represented by an association list; the Go map invariant (unique keys) is
the `Nodup` hypothesis carried by the theorems that quantify over entry
sets, and a permutation of the association list models a different
iteration order of the same map.
-/

namespace Rpmpack

/-- Constant `signatures = 0x3e` from the source. -/
def signatures : Int := 0x3e

/-- Constant `immutable = 0x3f` from the source. -/
def immutable : Int := 0x3f

/-- Constant `typeInt32 = 0x04` from the source. -/
def typeInt32 : Int := 0x04

/-- Constant `typeBinary = 0x07` from the source. -/
def typeBinary : Int := 0x07

/-- Constant `typeStringArray = 0x08` from the source. -/
def typeStringArray : Int := 0x08

/-- The four big-endian bytes of `int32(x)`: Go's conversion of an integer
to `int32` followed by `binary.Write(..., binary.BigEndian, ...)`.
Truncation to 32 bits and two's complement are both captured by reducing
modulo 2^32 first (`Int.emod` is nonnegative for a positive modulus). -/
def i32be (x : Int) : List Nat :=
  let n := (x % 4294967296).toNat
  [n / 16777216 % 256, n / 65536 % 256, n / 256 % 256, n % 256]

/-- `indexEntry` struct: `rpmtype`, `count` (Go ints) and `data` bytes. -/
structure indexEntry where
  rpmtype : Int
  count : Int
  data : List Nat
deriving DecidableEq

/-- `indexEntry.indexBytes`: the 16-byte index descriptor
`binary.Write(b, BigEndian, []int32{tag, rpmtype, contentOffset, count})`. -/
def indexEntry.indexBytes (e : indexEntry) (tag contentOffset : Int) : List Nat :=
  i32be tag ++ i32be e.rpmtype ++ i32be contentOffset ++ i32be e.count

/-- `bytes.Join(b, sep)`: concatenate the slices with `sep` between
consecutive elements (no leading or trailing separator). -/
def bytesJoin : List (List Nat) → List Nat → List Nat
  | [], _ => []
  | [b], _ => b
  | b :: bs, sep => b ++ sep ++ bytesJoin bs sep

/-- `StringArrayEntry`: join the strings with a single NUL separator and
append one final NUL byte. -/
def StringArrayEntry (value : List (List Nat)) : indexEntry :=
  { rpmtype := typeStringArray, count := value.length
    data := bytesJoin value [0] ++ [0] }

/-- `BinaryEntry`: raw bytes, count = byte length. -/
def BinaryEntry (value : List Nat) : indexEntry :=
  { rpmtype := typeBinary, count := value.length, data := value }

/-- `Int32Entry`: each `int32` big-endian, concatenated in order. -/
def Int32Entry (value : List Int) : indexEntry :=
  { rpmtype := typeInt32, count := value.length, data := (value.map i32be).flatten }

/-- The `index` struct: the Go `map[int]indexEntry` is modelled as an
association list (see the file comment), `h` is the region tag. -/
structure index where
  entries : List (Int × indexEntry)
  h : Int
deriving DecidableEq

/-- `NewIndex(h)`: empty entry map. -/
def NewIndex (h : Int) : index := { entries := [], h := h }

/-- Map lookup on the association-list representation. -/
def lookupTag : List (Int × indexEntry) → Int → Option indexEntry
  | [], _ => none
  | p :: t, tag => if p.1 = tag then some p.2 else lookupTag t tag

/-- `Add(tag, e)`: the Go map assignment `i.entries[tag] = e` — the entry
stored at `tag` becomes `e`, every other tag keeps its entry. -/
def index.Add (i : index) (tag : Int) (e : indexEntry) : index :=
  { entries := (tag, e) :: i.entries.filter (fun p => p.1 != tag), h := i.h }

/-- `i.entries[tag]` where `tag` is a key that is present (the serializer
only looks up tags drawn from the key set, so the default is never hit). -/
def index.getEntry (i : index) (tag : Int) : indexEntry :=
  (lookupTag i.entries tag).getD { rpmtype := 0, count := 0, data := [] }

/-- `sortedTags`: collect the map's keys and `sort.Ints` them. -/
def index.sortedTags (i : index) : List Int :=
  (i.entries.map Prod.fst).insertionSort (· ≤ ·)

/-- `pad(w, rpmtype, offset)`: the `boundaries` map binds only
`typeInt32 ↦ 4`, so padding of `b-offset%b` zero bytes is emitted exactly
when the type is Int32 and the offset is not 4-byte aligned. -/
def pad (rpmtype : Int) (offset : Nat) : List Nat :=
  if rpmtype = typeInt32 ∧ offset % 4 ≠ 0 then List.replicate (4 - offset % 4) 0 else []

/-- One iteration of the data-blob loop in `index.Write`: append the
alignment padding, record `entryData.Len()` as the entry's offset, then
append the entry's data. -/
def buildStep : List Nat × List Nat → indexEntry → List Nat × List Nat
  | (blob, offs), e =>
    let p := pad e.rpmtype blob.length
    (blob ++ p ++ e.data, offs ++ [blob.length + p.length])

/-- The data blob of the real entries (in sorted tag order, with padding)
together with the recorded per-entry offsets. -/
def index.realParts (i : index) : List Nat × List Nat :=
  (i.sortedTags.map i.getEntry).foldl buildStep ([], [])

/-- The 16 payload bytes of the region sentinel:
`binary.Write(b, BigEndian, []int32{h, typeBinary, -(0x10*(n+1)), 0x10})`. -/
def eigenData (n : Nat) (h : Int) : List Nat :=
  i32be h ++ i32be typeBinary ++ i32be (-(16 * ((n : Int) + 1))) ++ i32be 16

/-- `index.eigenHeader`: the sentinel entry is a `BinaryEntry` over the 16
payload bytes. -/
def index.eigenHeader (i : index) : indexEntry :=
  BinaryEntry (eigenData i.entries.length i.h)

/-- The complete data blob: real entries (padded) followed by the sentinel
payload, `entryData` at the end of the loop in `index.Write`. -/
def index.fullBlob (i : index) : List Nat :=
  i.realParts.1 ++ i.eigenHeader.data

/-- Writer state: number of `Write` calls made so far and bytes accepted. -/
structure WS where
  calls : Nat
  out : List Nat
deriving DecidableEq

/-- A sink: which of the successive write calls it accepts. -/
structure Sink where
  accepts : Nat → Bool

/-- One `w.Write(bs)` call: on success the bytes are appended, on failure
nothing is written; either way the call counter advances.  The returned
boolean is the success of the call. -/
def wwrite (s : Sink) (st : WS) (bs : List Nat) : WS × Bool :=
  if s.accepts st.calls then ({ calls := st.calls + 1, out := st.out ++ bs }, true)
  else ({ calls := st.calls + 1, out := st.out }, false)

/-- The sink that accepts every write. -/
def allOk : Sink := { accepts := fun _ => true }

/-- `[]byte{0x8e, 0xad, 0xe8, 0x01, 0, 0, 0, 0}`: 4 magic and 4 reserved. -/
def magicReserved : List Nat := [0x8e, 0xad, 0xe8, 0x01, 0, 0, 0, 0]

/-- The body of `index.Write` with the receiver's fields abstracted:
`tags = i.sortedTags`, `get tag = i.entries[tag]`, `n = len(i.entries)`,
`h = i.h`.  Mirrors the Go statement sequence: build `entryData` and the
offsets, write magic+reserved (error dropped), write count and size
(`binary.Write`, the only checked write — on failure return the error),
write the sentinel descriptor, the real descriptors in sorted order and
the blob (errors dropped), return success. -/
def writeCore (tags : List Int) (get : Int → indexEntry) (n : Nat) (h : Int)
    (s : Sink) : WS × Bool :=
  let eigen := BinaryEntry (eigenData n h)
  let bo := (tags.map get).foldl buildStep ([], [])
  let blob := bo.1 ++ eigen.data
  let st1 := (wwrite s { calls := 0, out := [] } magicReserved).1
  let r2 := wwrite s st1 (i32be ((n : Int) + 1) ++ i32be (blob.length : Int))
  if r2.2 then
    let st3 := (wwrite s r2.1 (eigen.indexBytes h ((blob.length : Int) - 16))).1
    let st4 := (tags.zip bo.2).foldl
      (fun st p => (wwrite s st ((get p.1).indexBytes p.1 (p.2 : Int))).1) st3
    let st5 := (wwrite s st4 blob).1
    (st5, true)
  else (r2.1, false)

/-- `index.Write`: the method reads but never assigns the receiver's
fields, so the returned receiver is the input index unchanged. -/
def index.Write (i : index) (s : Sink) : index × WS × Bool :=
  (i, writeCore i.sortedTags i.getEntry i.entries.length i.h s)

/-- The byte stream produced by `Write` on a sink that accepts every
write. -/
def indexOut (i : index) : List Nat :=
  ((i.Write allOk).2.1).out

/-- `Lead(name, version, release)`: fixed 96-byte lead. -/
def Lead (name version release : List Nat) : List Nat :=
  let n0 := name ++ [45] ++ version ++ [45] ++ release
  let n1 := if 65 < n0.length then n0.take 65 else n0
  let n2 := n1 ++ List.replicate (66 - n1.length) 0
  [0xed, 0xab, 0xee, 0xdb, 0x03, 0x00, 0x00, 0x00, 0x00, 0x01] ++ n2 ++
    [0x00, 0x01, 0x00, 0x05] ++ List.replicate 16 0

/-! ### Helper lemmas -/

lemma bytesJoin_nul_append (v : List Nat) (t : List (List Nat)) :
    bytesJoin (v :: t) [0] ++ [0] = ((v :: t).map (fun s => s ++ [0])).flatten := by
  induction t generalizing v with
  | nil => simp [bytesJoin]
  | cons w t ih =>
      show (v ++ [0] ++ bytesJoin (w :: t) [0]) ++ [0] = _
      rw [List.append_assoc, List.append_assoc, ih w]
      simp

/-- C10: `StringArrayEntry` on the empty string list yields count 0 and a
data payload of exactly one NUL byte. -/
theorem stringArrayEntry_empty :
    (StringArrayEntry []).count = 0 ∧ (StringArrayEntry []).data = [0] := by
  decide

/-- C1 counterexample: `StringArrayEntry(["a","bb"])` does NOT produce the
claimed data bytes `a\x00bb\x00\x00`: the constructor joins the strings
with single NUL separators and appends exactly one final NUL, so the data
is `a\x00bb\x00` (5 bytes), without the extra trailing NUL. -/
theorem stringArrayEntry_example_cex :
    (StringArrayEntry [[97], [98, 98]]).data ≠ [97, 0, 98, 98, 0, 0] := by
  decide

/-- C1 (amended): the string-array entry has type StringArray, count = the
number of strings, and data equal to each input string followed by a NUL
terminator, concatenated in input order, with NO additional trailing NUL
byte (the empty string list yields a single NUL byte). -/
theorem stringArray_spec (value : List (List Nat)) :
    (StringArrayEntry value).rpmtype = typeStringArray ∧
    (StringArrayEntry value).count = (value.length : Int) ∧
    (StringArrayEntry value).data =
      (if value = [] then [0] else (value.map (fun s => s ++ [0])).flatten) := by
  refine ⟨rfl, rfl, ?_⟩
  cases value with
  | nil => simp [StringArrayEntry, bytesJoin]
  | cons v t => simp [StringArrayEntry, bytesJoin_nul_append v t]

/-- C1 witness: the amended statement at the concrete input `["a","bb"]`. -/
theorem stringArray_spec_witness :
    (StringArrayEntry [[97], [98, 98]]).rpmtype = typeStringArray ∧
    (StringArrayEntry [[97], [98, 98]]).count = (2 : Int) ∧
    (StringArrayEntry [[97], [98, 98]]).data =
      (if ([[97], [98, 98]] : List (List Nat)) = [] then [0]
       else (([[97], [98, 98]] : List (List Nat)).map (fun s => s ++ [0])).flatten) :=
  stringArray_spec [[97], [98, 98]]

/-- C5: in the blob-construction step, an Int32 entry at an unaligned
pre-padding offset `o` gets exactly `4 - o % 4` zero bytes of padding and a
recorded offset of `o + (4 - o % 4)`; Binary and StringArray entries get no
padding and a recorded offset equal to the current blob length. -/
theorem blob_padding (blob offs : List Nat) (e : indexEntry) :
    (e.rpmtype = typeInt32 → blob.length % 4 ≠ 0 →
      buildStep (blob, offs) e =
        (blob ++ List.replicate (4 - blob.length % 4) 0 ++ e.data,
         offs ++ [blob.length + (4 - blob.length % 4)])) ∧
    (e.rpmtype = typeBinary ∨ e.rpmtype = typeStringArray →
      buildStep (blob, offs) e = (blob ++ e.data, offs ++ [blob.length])) := by
  constructor
  · intro h1 h2
    simp [buildStep, pad, h1, h2]
  · intro h
    have hne : ¬(e.rpmtype = typeInt32 ∧ blob.length % 4 ≠ 0) := by
      rcases h with h | h <;> simp [h, typeBinary, typeStringArray, typeInt32]
    simp [buildStep, pad, hne]

/-- C5 witness: the padding behaviour at a concrete unaligned offset 3, for
an Int32 entry (one zero byte of padding, offset 4) and a Binary entry (no
padding, offset 3). -/
theorem blob_padding_witness :
    buildStep ([9, 9, 9], []) (Int32Entry [5]) = ([9, 9, 9, 0, 0, 0, 0, 5], [4]) ∧
    buildStep ([9, 9, 9], []) (BinaryEntry [7]) = ([9, 9, 9, 7], [3]) := by
  constructor
  · have h := (blob_padding [9, 9, 9] [] (Int32Entry [5])).1 rfl (by decide)
    rw [h]; decide
  · have h := (blob_padding [9, 9, 9] [] (BinaryEntry [7])).2 (Or.inl rfl)
    rw [h]; decide

/-- C8: `Lead` always returns exactly 96 bytes; bytes 0-3 are the magic
`0xed 0xab 0xee 0xdb`; the 66-byte name field at bytes 10-75 is
`name-version-release` truncated to at most 65 bytes and right-padded with
zeros; the output ends with 16 zero bytes. -/
theorem lead_spec (name version release : List Nat) :
    (Lead name version release).length = 96 ∧
    (Lead name version release).take 4 = [0xed, 0xab, 0xee, 0xdb] ∧
    ((Lead name version release).drop 10).take 66 =
      (name ++ [45] ++ version ++ [45] ++ release).take 65 ++
        List.replicate (66 - min 65 (name ++ [45] ++ version ++ [45] ++ release).length) 0 ∧
    (Lead name version release).drop 80 = List.replicate 16 0 := by
  set s := name ++ [45] ++ version ++ [45] ++ release with hs
  have hn1 : (if 65 < s.length then s.take 65 else s) = s.take 65 := by
    by_cases h : 65 < s.length
    · simp [h]
    · have hle : s.length ≤ 65 := by omega
      simp [h, List.take_of_length_le hle]
  have hlen1 : (s.take 65).length = min 65 s.length := List.length_take _ _
  have hmin : min 65 s.length ≤ 65 := Nat.min_le_left _ _
  have hn2 : (s.take 65 ++ List.replicate (66 - min 65 s.length) 0).length = 66 := by
    simp [hlen1]
  have hL : Lead name version release =
      [0xed, 0xab, 0xee, 0xdb, 0x03, 0x00, 0x00, 0x00, 0x00, 0x01] ++
        (s.take 65 ++ List.replicate (66 - min 65 s.length) 0) ++
        [0x00, 0x01, 0x00, 0x05] ++ List.replicate 16 0 := by
    simp only [Lead]
    rw [← hs, hn1, hlen1]
  refine ⟨?_, ?_, ?_, ?_⟩
  · rw [hL]
    simp [hlen1]
    omega
  · rw [hL]
    rfl
  · rw [hL]
    show (((s.take 65 ++ List.replicate (66 - min 65 s.length) 0) ++
      [0x00, 0x01, 0x00, 0x05]) ++ List.replicate 16 0).take 66 = _
    rw [List.append_assoc]
    exact List.take_left' hn2
  · rw [hL]
    apply List.drop_left'
    simp [hlen1]
    omega

/-- C8 witness: `Lead("pkg","1.0","1")` has length 96, the right magic, the
zero-padded name field and the trailing 16 zero bytes. -/
theorem lead_spec_witness :
    (Lead [112, 107, 103] [49, 46, 48] [49]).length = 96 ∧
    (Lead [112, 107, 103] [49, 46, 48] [49]).take 4 = [0xed, 0xab, 0xee, 0xdb] ∧
    ((Lead [112, 107, 103] [49, 46, 48] [49]).drop 10).take 66 =
      ([112, 107, 103] ++ [45] ++ [49, 46, 48] ++ [45] ++ [49]).take 65 ++
        List.replicate
          (66 - min 65 ([112, 107, 103] ++ [45] ++ [49, 46, 48] ++ [45] ++ [49] : List Nat).length) 0 ∧
    (Lead [112, 107, 103] [49, 46, 48] [49]).drop 80 = List.replicate 16 0 :=
  lead_spec [112, 107, 103] [49, 46, 48] [49]

/-! ### Serialization helpers -/

lemma wwrite_allOk (st : WS) (bs : List Nat) :
    wwrite allOk st bs = ({ calls := st.calls + 1, out := st.out ++ bs }, true) := rfl

lemma length_i32be (x : Int) : (i32be x).length = 4 := rfl

lemma foldl_append_count {α : Type} (f : α → List Nat) (l : List α) (st : WS) :
    l.foldl (fun st p => ({ calls := st.calls + 1, out := st.out ++ f p } : WS)) st =
      { calls := st.calls + l.length, out := st.out ++ (l.map f).flatten } := by
  induction l generalizing st with
  | nil => simp
  | cons a t ih =>
      simp only [List.foldl_cons]
      rw [ih]
      dsimp only
      simp only [List.length_cons, List.map_cons, List.flatten_cons]
      congr 1
      · omega
      · simp [List.append_assoc]

/-- Structure of the full output stream on an always-accepting sink. -/
lemma indexOut_eq (i : index) :
    indexOut i =
      magicReserved ++ i32be ((i.entries.length : Int) + 1) ++ i32be (i.fullBlob.length : Int) ++
        i.eigenHeader.indexBytes i.h ((i.fullBlob.length : Int) - 16) ++
        ((i.sortedTags.zip i.realParts.2).map
          (fun p => (i.getEntry p.1).indexBytes p.1 (p.2 : Int))).flatten ++
        i.fullBlob := by
  simp only [indexOut, index.Write, writeCore, index.realParts, index.fullBlob,
    index.eigenHeader, wwrite_allOk, foldl_append_count]
  simp [List.append_assoc]

/-- C4: right after the 8-byte preamble (magic then four zero bytes), the
stream carries two big-endian 32-bit integers: entry count `n + 1` and the
total data-blob length (padding + entry data + 16-byte sentinel payload). -/
theorem header_count_size (i : index) :
    (indexOut i).take 16 =
      magicReserved ++ i32be ((i.entries.length : Int) + 1) ++ i32be (i.fullBlob.length : Int) := by
  rw [indexOut_eq, List.append_assoc, List.append_assoc]
  exact List.take_left' (by simp [magicReserved, length_i32be])

/-- C4 witness: the count/size fields at a concrete one-entry index. -/
theorem header_count_size_witness :
    (indexOut ((NewIndex 63).Add 1000 (Int32Entry [7]))).take 16 =
      magicReserved ++
        i32be ((((NewIndex 63).Add 1000 (Int32Entry [7])).entries.length : Int) + 1) ++
        i32be ((((NewIndex 63).Add 1000 (Int32Entry [7])).fullBlob.length : Int)) :=
  header_count_size ((NewIndex 63).Add 1000 (Int32Entry [7]))

/-- C2 counterexample: for the empty index with region tag 0x3f (n = 0),
the sentinel descriptor's offset field (bytes 24-27 of the stream, i.e.
bytes 8-11 of the descriptor at bytes 16-31) is NOT the big-endian encoding
of `-(16 * (n + 1)) = -16`: the descriptor carries the sentinel payload's
position `bloblen - 16 = 0`, and the negative value appears only inside the
payload. -/
theorem sentinel_offset_cex :
    ((indexOut (NewIndex 63)).drop 24).take 4 ≠ i32be (-(16 * (0 + 1))) := by
  decide

/-- C2 (amended): the sentinel descriptor has tag = the region tag, type =
Binary, count = 16 and offset = data-blob length minus 16 (the payload's
position at the end of the blob); the 16-byte payload (the final 16 bytes
of the stream) is the big-endian encoding of
(tag, Binary, -(16*(n+1)), 16). -/
theorem sentinel_fields (i : index) :
    ((indexOut i).drop 16).take 16 =
      i32be i.h ++ i32be typeBinary ++ i32be ((i.fullBlob.length : Int) - 16) ++ i32be 16 ∧
    (indexOut i).drop ((indexOut i).length - 16) =
      i32be i.h ++ i32be typeBinary ++ i32be (-(16 * ((i.entries.length : Int) + 1))) ++ i32be 16 := by
  constructor
  · rw [indexOut_eq, List.append_assoc, List.append_assoc]
    rw [List.drop_left' (show (magicReserved ++ i32be ((i.entries.length : Int) + 1) ++
      i32be (i.fullBlob.length : Int)).length = 16 by simp [magicReserved, length_i32be])]
    rw [List.append_assoc]
    exact List.take_left' (by rfl)
  · have hsplit : indexOut i =
        (magicReserved ++ i32be ((i.entries.length : Int) + 1) ++
          i32be (i.fullBlob.length : Int) ++
          i.eigenHeader.indexBytes i.h ((i.fullBlob.length : Int) - 16) ++
          ((i.sortedTags.zip i.realParts.2).map
            (fun p => (i.getEntry p.1).indexBytes p.1 (p.2 : Int))).flatten ++
          i.realParts.1) ++ i.eigenHeader.data := by
      rw [indexOut_eq, index.fullBlob, ← List.append_assoc]
    rw [hsplit, List.length_append]
    have hd : i.eigenHeader.data.length = 16 := rfl
    rw [hd, Nat.add_sub_cancel]
    rw [List.drop_left]
    rfl

/-- C2 witness: the amended sentinel fields at a concrete one-entry index. -/
theorem sentinel_fields_witness :
    ((indexOut ((NewIndex 63).Add 1000 (Int32Entry [7]))).drop 16).take 16 =
      i32be ((NewIndex 63).Add 1000 (Int32Entry [7])).h ++ i32be typeBinary ++
        i32be (((((NewIndex 63).Add 1000 (Int32Entry [7])).fullBlob.length : Int)) - 16) ++
        i32be 16 ∧
    (indexOut ((NewIndex 63).Add 1000 (Int32Entry [7]))).drop
        ((indexOut ((NewIndex 63).Add 1000 (Int32Entry [7]))).length - 16) =
      i32be ((NewIndex 63).Add 1000 (Int32Entry [7])).h ++ i32be typeBinary ++
        i32be (-(16 * (((((NewIndex 63).Add 1000 (Int32Entry [7])).entries.length : Int)) + 1))) ++
        i32be 16 :=
  sentinel_fields ((NewIndex 63).Add 1000 (Int32Entry [7]))

/-! ### Tag ordering and map-semantics helpers -/

lemma sortedTags_sorted_lt (i : index) (hnd : (i.entries.map Prod.fst).Nodup) :
    i.sortedTags.Sorted (· < ·) := by
  have hsorted : i.sortedTags.Sorted (· ≤ ·) := List.sorted_insertionSort _ _
  have hperm : i.sortedTags.Perm (i.entries.map Prod.fst) := List.perm_insertionSort _ _
  exact hsorted.lt_of_le (hperm.nodup_iff.mpr hnd)

lemma lookupTag_perm (a : Int) {l₁ l₂ : List (Int × indexEntry)} (hp : l₁.Perm l₂) :
    (l₁.map Prod.fst).Nodup → lookupTag l₁ a = lookupTag l₂ a := by
  induction hp with
  | nil => intro _; rfl
  | cons x hp ih =>
      intro hnd
      simp only [List.map_cons, List.nodup_cons] at hnd
      by_cases hx : x.1 = a
      · simp [lookupTag, hx]
      · simp [lookupTag, hx, ih hnd.2]
  | swap x y t =>
      intro hnd
      simp only [List.map_cons, List.nodup_cons, List.mem_cons] at hnd
      have hxy : y.1 ≠ x.1 := fun h => hnd.1 (Or.inl h)
      by_cases h1 : y.1 = a <;> by_cases h2 : x.1 = a
      · exact absurd (h1.trans h2.symm) hxy
      · simp [lookupTag, h1, h2]
      · simp [lookupTag, h1, h2]
      · simp [lookupTag, h1, h2]
  | trans hp₁ hp₂ ih₁ ih₂ =>
      intro hnd
      rw [ih₁ hnd, ih₂ ((hp₁.map Prod.fst).nodup_iff.mp hnd)]

lemma lookupTag_filter_ne {tag t : Int} (l : List (Int × indexEntry)) (h : t ≠ tag) :
    lookupTag (l.filter (fun p => p.1 != tag)) t = lookupTag l t := by
  induction l with
  | nil => rfl
  | cons p l ih =>
      by_cases hp : p.1 = tag
      · have hne : ¬(tag = t) := fun he => h he.symm
        simp [List.filter_cons, hp, lookupTag, hne, ih]
      · simp [List.filter_cons, hp, lookupTag, ih]

/-! ### Remaining claims -/

/-- C6: the stream is the 16-byte preamble block, then the sentinel's
16-byte descriptor FIRST, then one 16-byte descriptor
(tag, type, offset, count) per real entry in strictly ascending tag order,
then the data blob whose final element is the sentinel payload. -/
theorem output_layout (i : index) (hnd : (i.entries.map Prod.fst).Nodup) :
    indexOut i =
      magicReserved ++ i32be ((i.entries.length : Int) + 1) ++ i32be (i.fullBlob.length : Int) ++
        i.eigenHeader.indexBytes i.h ((i.fullBlob.length : Int) - 16) ++
        ((i.sortedTags.zip i.realParts.2).map
          (fun p => (i.getEntry p.1).indexBytes p.1 (p.2 : Int))).flatten ++
        (i.realParts.1 ++ i.eigenHeader.data) ∧
    i.sortedTags.Sorted (· < ·) := by
  constructor
  · exact indexOut_eq i
  · exact sortedTags_sorted_lt i hnd

/-- C6 witness: the layout at a concrete two-entry index. -/
theorem output_layout_witness :
    (indexOut (((NewIndex 63).Add 1000 (Int32Entry [7])).Add 1001 (BinaryEntry [1, 2])) =
      magicReserved ++
        i32be ((((((NewIndex 63).Add 1000 (Int32Entry [7])).Add 1001
          (BinaryEntry [1, 2])).entries.length : Int)) + 1) ++
        i32be (((((NewIndex 63).Add 1000 (Int32Entry [7])).Add 1001
          (BinaryEntry [1, 2])).fullBlob.length : Int)) ++
        (((NewIndex 63).Add 1000 (Int32Entry [7])).Add 1001
          (BinaryEntry [1, 2])).eigenHeader.indexBytes
          ((((NewIndex 63).Add 1000 (Int32Entry [7])).Add 1001 (BinaryEntry [1, 2])).h)
          (((((NewIndex 63).Add 1000 (Int32Entry [7])).Add 1001
            (BinaryEntry [1, 2])).fullBlob.length : Int) - 16) ++
        (((((NewIndex 63).Add 1000 (Int32Entry [7])).Add 1001
            (BinaryEntry [1, 2])).sortedTags.zip
          ((((NewIndex 63).Add 1000 (Int32Entry [7])).Add 1001
            (BinaryEntry [1, 2])).realParts.2)).map
          (fun p => (((((NewIndex 63).Add 1000 (Int32Entry [7])).Add 1001
            (BinaryEntry [1, 2])).getEntry p.1).indexBytes p.1 (p.2 : Int)))).flatten ++
        ((((NewIndex 63).Add 1000 (Int32Entry [7])).Add 1001
          (BinaryEntry [1, 2])).realParts.1 ++
          (((NewIndex 63).Add 1000 (Int32Entry [7])).Add 1001
            (BinaryEntry [1, 2])).eigenHeader.data)) ∧
    (((NewIndex 63).Add 1000 (Int32Entry [7])).Add 1001
      (BinaryEntry [1, 2])).sortedTags.Sorted (· < ·) :=
  output_layout (((NewIndex 63).Add 1000 (Int32Entry [7])).Add 1001 (BinaryEntry [1, 2]))
    (by decide)

/-- C7: serialization is a pure function of the tag-to-entry mapping and
the region tag — two indices holding the same mapping (association lists
that are permutations of one another, i.e. the same Go map under any
iteration order) produce identical writer results on any sink, hence
byte-identical output. -/
theorem serialize_deterministic (i₁ i₂ : index) (s : Sink)
    (hh : i₁.h = i₂.h) (hperm : i₁.entries.Perm i₂.entries)
    (hnd : (i₁.entries.map Prod.fst).Nodup) :
    (i₁.Write s).2 = (i₂.Write s).2 := by
  have hkeys : (i₁.entries.map Prod.fst).Perm (i₂.entries.map Prod.fst) := hperm.map _
  have htags : i₁.sortedTags = i₂.sortedTags :=
    List.eq_of_perm_of_sorted
      ((List.perm_insertionSort _ _).trans (hkeys.trans (List.perm_insertionSort _ _).symm))
      (List.sorted_insertionSort _ _) (List.sorted_insertionSort _ _)
  have hget : i₁.getEntry = i₂.getEntry := by
    funext t
    show (lookupTag i₁.entries t).getD _ = (lookupTag i₂.entries t).getD _
    rw [lookupTag_perm t hperm hnd]
  have hlen : i₁.entries.length = i₂.entries.length := hperm.length_eq
  show writeCore i₁.sortedTags i₁.getEntry i₁.entries.length i₁.h s =
    writeCore i₂.sortedTags i₂.getEntry i₂.entries.length i₂.h s
  rw [htags, hget, hlen, hh]

/-- C7 witness: two indices holding the same two entries in opposite list
order produce the same writer result. -/
theorem serialize_deterministic_witness :
    (index.Write { entries := [(1, BinaryEntry [1]), (2, BinaryEntry [2])], h := 63 } allOk).2 =
    (index.Write { entries := [(2, BinaryEntry [2]), (1, BinaryEntry [1])], h := 63 } allOk).2 :=
  serialize_deterministic _ _ allOk rfl
    (List.Perm.swap (2, BinaryEntry [2]) (1, BinaryEntry [1]) []) (by decide)

/-- C9: `Add(tag, e)` stores `e` at `tag` (replacing any prior entry there)
and leaves every other tag's entry and the region tag unchanged; `Write`
returns its receiver unchanged, so serializing again gives the same
result. -/
theorem add_frame (i : index) (tag : Int) (e : indexEntry) (s : Sink) :
    lookupTag (i.Add tag e).entries tag = some e ∧
    (∀ t, t ≠ tag → lookupTag (i.Add tag e).entries t = lookupTag i.entries t) ∧
    (i.Add tag e).h = i.h ∧
    (i.Write s).1 = i ∧
    (i.Write s).1.Write s = i.Write s := by
  refine ⟨by simp [index.Add, lookupTag], ?_, rfl, rfl, rfl⟩
  intro t ht
  show lookupTag ((tag, e) :: i.entries.filter (fun p => p.1 != tag)) t = _
  have hne : ¬(tag = t) := fun h => ht h.symm
  simp [lookupTag, hne, lookupTag_filter_ne _ ht]

/-- C9 witness: the frame conditions at a concrete index, tag 5, probe
tag 7. -/
theorem add_frame_witness :
    lookupTag ((NewIndex 63).Add 5 (BinaryEntry [1])).entries 5 = some (BinaryEntry [1]) ∧
    lookupTag ((NewIndex 63).Add 5 (BinaryEntry [1])).entries 7 =
      lookupTag (NewIndex 63).entries 7 ∧
    ((NewIndex 63).Add 5 (BinaryEntry [1])).h = (NewIndex 63).h ∧
    ((NewIndex 63).Write allOk).1 = NewIndex 63 ∧
    ((NewIndex 63).Write allOk).1.Write allOk = (NewIndex 63).Write allOk := by
  have h := add_frame (NewIndex 63) 5 (BinaryEntry [1]) allOk
  exact ⟨h.1, h.2.1 7 (by decide), h.2.2.1, h.2.2.2.1, h.2.2.2.2⟩

/-- A sink that rejects the very first write call (the 8 magic/reserved
bytes) and accepts every later one. -/
def badSink : Sink := { accepts := fun k => k != 0 }

/-- C3 is violated by the code: on a sink that rejects the first write,
`Write` still reports success (only the error of the count/size
`binary.Write` is checked; the errors of the magic, descriptor and blob
writes are dropped), and the produced stream is missing the 8 preamble
bytes. -/
theorem write_error_dropped :
    ((NewIndex 63).Write badSink).2.2 = true ∧
    badSink.accepts 0 = false ∧
    ((NewIndex 63).Write badSink).2.1.out ≠ indexOut (NewIndex 63) := by
  decide

end Rpmpack
